import Mathlib

/-!
# Verification of the rust-redis core (src/main.rs)

Shallow embedding of the RESP decoder (`Parser::parse_value`), the command
extractor (`get_command`), and the command executor (`handle_command`) from
`src/main.rs`, together with theorems settling the specification claims.

Conventions of the embedding:
* Rust byte buffers and Rust `String`s are both modelled as `List Nat`
  (each entry a byte value); `String` in Rust is a UTF-8 byte sequence, so
  this is exact (e.g. `x.value.len()` in the GET reply is the byte length,
  which is `List.length` here).
* A Rust panic (`panic!`, `expect`, `assert!`, an out-of-bounds index, or a
  failed `parse`) is modelled as `none`; normal returns are `some`.
* `get_time()` (wall-clock milliseconds) is passed as an explicit `now`
  parameter; arithmetic on `u128` timestamps is modelled as `Nat`
  (the involved sums are far below `2 ^ 128`, so no wrap can occur).
* The unbounded recursion of `parse_value` through the array branch is
  given the fuel `buf.length + 1`, which is larger than the deepest call
  chain any buffer of that length can produce (each recursive element
  consumes at least three bytes).
-/

abbrev ByteStr := List Nat

/-- Bytes of an ASCII string literal (every claim below uses ASCII data). -/
def asciiBytes (s : String) : ByteStr := s.data.map Char.toNat

/-- The `Value` enum of src/main.rs: simple string, bulk string, array. -/
inductive Value where
  | SimpleString : ByteStr → Value
  | BulkString : ByteStr → Value
  | Array : List Value → Value

/-- `buf[i]` as a fallible read: `none` models the index-out-of-bounds panic. -/
def byteAt (buf : ByteStr) (i : Nat) : Option Nat := buf.get? i

/-- Consume `k` plain UTF-8 continuation bytes (`0x80 ..= 0xBF`), returning
the remainder; `none` if a byte is missing or out of range. -/
def contN : Nat → ByteStr → Option ByteStr
  | 0, r => some r
  | _ + 1, [] => none
  | k + 1, c :: r => if 128 ≤ c ∧ c ≤ 191 then contN k r else none

/-- Consume one continuation byte restricted to `lo ..= hi` followed by `k`
plain continuation bytes, returning the remainder. -/
def seq1 (lo hi k : Nat) (rest : ByteStr) : Option ByteStr :=
  match rest with
  | [] => none
  | c1 :: r1 => if lo ≤ c1 ∧ c1 ≤ hi then contN k r1 else none

/-- One UTF-8 validation step at lead byte `b` (RFC 3629: no overlong
forms, no surrogates, max U+10FFFF): the remainder after the sequence
headed by `b`, or `none` if invalid. -/
def utf8Step (b : Nat) (rest : ByteStr) : Option ByteStr :=
  if b ≤ 127 then some rest
  else if 194 ≤ b ∧ b ≤ 223 then seq1 128 191 0 rest
  else if b = 224 then seq1 160 191 1 rest
  else if (225 ≤ b ∧ b ≤ 236) ∨ b = 238 ∨ b = 239 then seq1 128 191 1 rest
  else if b = 237 then seq1 128 159 1 rest
  else if b = 240 then seq1 144 191 2 rest
  else if 241 ≤ b ∧ b ≤ 243 then seq1 128 191 2 rest
  else if b = 244 then seq1 128 143 2 rest
  else none

/-- UTF-8 validity loop; the fuel only drives the recursion and
`l.length` is always enough since every step consumes at least the lead
byte. -/
def validUtf8Go : Nat → ByteStr → Bool
  | _, [] => true
  | 0, _ :: _ => false
  | fuel + 1, b :: rest =>
    match utf8Step b rest with
    | none => false
    | some r => validUtf8Go fuel r

/-- Validity of a byte list as UTF-8, mirroring what `String::from_utf8`
accepts. -/
def validUtf8 (l : ByteStr) : Bool := validUtf8Go l.length l

/-- `String::from_utf8(data)`: `some` iff the bytes are valid UTF-8
(`.expect` on the `Err` case is the modelled panic). -/
def fromUtf8 (data : ByteStr) : Option ByteStr :=
  if validUtf8 data then some data else none

/-- The loop `while self.buf[self.pos] != b'\r' { data.push(…); self.pos += 1 }`
run on the suffix of the buffer starting at the current position: collects the
bytes before the first CR and returns them with the offset of that CR.
`none` models the out-of-bounds panic when the buffer ends before a CR. -/
def takeUntilCR : ByteStr → Option (ByteStr × Nat)
  | [] => none
  | b :: rest =>
    if b = 13 then some ([], 0)
    else
      match takeUntilCR rest with
      | none => none
      | some (d, n) => some (b :: d, n + 1)

/-- Digit-string accumulator for Rust's integer `parse`: consumes decimal
digits only, `none` on any other byte. -/
def digitsToNatAux : ByteStr → Nat → Option Nat
  | [], acc => some acc
  | b :: rest, acc =>
    if 48 ≤ b ∧ b ≤ 57 then digitsToNatAux rest (acc * 10 + (b - 48))
    else none

/-- `str::parse::<i64>`: optional single `+`/`-` sign, then at least one
decimal digit, value within the `i64` range; `none` models `Err`. -/
def parseI64 (s : ByteStr) : Option Int :=
  match s with
  | [] => none
  | 43 :: rest =>
    match rest, digitsToNatAux rest 0 with
    | [], _ => none
    | _, some n => if n ≤ 9223372036854775807 then some (Int.ofNat n) else none
    | _, none => none
  | 45 :: rest =>
    match rest, digitsToNatAux rest 0 with
    | [], _ => none
    | _, some n => if n ≤ 9223372036854775808 then some (-(Int.ofNat n)) else none
    | _, none => none
  | _ =>
    match digitsToNatAux s 0 with
    | some n => if n ≤ 9223372036854775807 then some (Int.ofNat n) else none
    | none => none

/-- `str::parse::<u64>`: optional single `+` sign, then at least one decimal
digit, value below `2 ^ 64`; `none` models `Err`. -/
def parseU64 (s : ByteStr) : Option Nat :=
  match s with
  | [] => none
  | 43 :: rest =>
    match rest, digitsToNatAux rest 0 with
    | [], _ => none
    | _, some n => if n ≤ 18446744073709551615 then some n else none
    | _, none => none
  | _ =>
    match digitsToNatAux s 0 with
    | some n => if n ≤ 18446744073709551615 then some n else none
    | none => none

mutual

/-- `Parser::parse_value` of src/main.rs on `(buf, pos)`, returning the value
and the position after it. Faithful to the source, defects included:
* the `$` branch skips a fixed 4 bytes (`self.pos += 4`) instead of reading
  the declared length, then collects payload bytes until the next CR;
* the `*` branch consumes an optional `+`/`-` sign but the resulting
  `positive` flag is never used, so the element count is the value of the
  digit token that follows the sign;
* every panic of the source (out-of-bounds index, unsupported lead byte,
  `from_utf8` failure, integer-parse failure) is `none`. -/
def parseValue : Nat → ByteStr → Nat → Option (Value × Nat)
  | 0, _, _ => none
  | fuel + 1, buf, pos =>
    match byteAt buf pos with
    | none => none
    | some b =>
      if b = 43 then
        match takeUntilCR (buf.drop (pos + 1)) with
        | none => none
        | some (d, off) =>
          match fromUtf8 d with
          | none => none
          | some s => some (Value.SimpleString s, pos + 1 + off + 2)
      else if b = 36 then
        match takeUntilCR (buf.drop (pos + 4)) with
        | none => none
        | some (d, off) =>
          match fromUtf8 d with
          | none => none
          | some s => some (Value.BulkString s, pos + 4 + off + 2)
      else if b = 42 then
        match byteAt buf (pos + 1) with
        | none => none
        | some c =>
          let p2 := if c = 43 ∨ c = 45 then pos + 2 else pos + 1
          match takeUntilCR (buf.drop p2) with
          | none => none
          | some (nd, off) =>
            match fromUtf8 nd with
            | none => none
            | some nds =>
              match parseI64 nds with
              | none => none
              | some items =>
                match parseElems fuel buf (p2 + off + 2) items.toNat with
                | none => none
                | some (arr, p) => some (Value.Array arr, p)
      else none

/-- The loop `for _ in 0..items { array.push(self.parse_value()) }`. -/
def parseElems : Nat → ByteStr → Nat → Nat → Option (List Value × Nat)
  | 0, _, _, _ => none
  | _ + 1, _, pos, 0 => some ([], pos)
  | fuel + 1, buf, pos, n + 1 =>
    match parseValue fuel buf pos with
    | none => none
    | some (v, p) =>
      match parseElems fuel buf p n with
      | none => none
      | some (vs, q) => some (v :: vs, q)

end

/-- `Parser::new(buf).parse_value()`: decode one frame from the start of the
buffer. The fuel `buf.length + 1` exceeds any possible call depth. -/
def decode (buf : ByteStr) : Option (Value × Nat) :=
  parseValue (buf.length + 1) buf 0

/-! ## Command extractor (`get_command`) -/

/-- `extract_string` of src/main.rs: the payload of a string-typed `Value`;
`none` models the `panic!("String expected")` on arrays. -/
def extract_string : Value → Option ByteStr
  | Value.SimpleString x => some x
  | Value.BulkString x => some x
  | Value.Array _ => none

/-- `get_command` of src/main.rs: splits a top-level array into the command
name and the remaining elements. `none` models the panics: the `v[0]` index
panic on an empty array, `panic!("Not a string")` on a non-string first
element, and `panic!("Not a command")` on a non-array root. The remaining
elements are passed through unchecked, exactly as in the source. -/
def get_command : Value → Option (ByteStr × List Value)
  | Value.Array v =>
    match v with
    | [] => none
    | first :: rest =>
      match first with
      | Value.SimpleString x => some (x, rest)
      | Value.BulkString x => some (x, rest)
      | Value.Array _ => none
  | _ => none

/-! ## Store and command executor (`handle_command`) -/

/-- `StoredValue` of src/main.rs: a value with its absolute expiry (ms). -/
structure StoredValue where
  value : ByteStr
  expiry : Nat
deriving DecidableEq, Repr

/-- The `HashMap<String, StoredValue>` store, modelled as an association
list with unique keys (insertion order stands in for the hash order, which
no claim depends on). -/
abbrev Store := List (ByteStr × StoredValue)

/-- `HashMap::get`. -/
def storeGet : Store → ByteStr → Option StoredValue
  | [], _ => none
  | (k, v) :: rest, key => if k = key then some v else storeGet rest key

/-- `HashMap::insert`: replaces the entry of an existing key, otherwise
appends a fresh one. -/
def storeInsert : Store → ByteStr → StoredValue → Store
  | [], key, v => [(key, v)]
  | (k, w) :: rest, key, v =>
    if k = key then (key, v) :: rest else (k, w) :: storeInsert rest key v

/-- `str::to_ascii_uppercase`, byte by byte (only `a ..= z` change, which
coincides with the char-wise Rust behavior on UTF-8 bytes). -/
def upperAscii (s : ByteStr) : ByteStr :=
  s.map (fun b => if 97 ≤ b ∧ b ≤ 122 then b - 32 else b)

/-- Decimal digits of `n`, as produced by `format!("{}", n)`. -/
def natToBytes (n : Nat) : ByteStr := (Nat.toDigits 10 n).map Char.toNat

def crlf : ByteStr := [13, 10]

/-- The `"+OK\r\n"` reply. -/
def okReply : ByteStr := asciiBytes "+OK\r\n"

/-- The `"$-1\r\n"` null bulk reply. -/
def nullBulk : ByteStr := asciiBytes "$-1\r\n"

/-- The GET success reply `format!("${}\r\n{}\r\n", v.len(), v)`. -/
def bulkReply (v : ByteStr) : ByteStr := 36 :: (natToBytes v.length ++ crlf ++ v ++ crlf)

/-- `Duration::from_secs(3600 * 24 * 365).as_millis()`: the default ttl. -/
def defaultTtlMs : Nat := 31536000000

/-- `handle_command` of src/main.rs: executes `(name, args)` against the
store at wall-clock time `now` (ms), returning the reply bytes and the
resulting store. `none` models the panics of the source: the `expect`s on
missing arguments, `extract_string` on a non-string argument, the
`assert!(key.to_ascii_uppercase() == "PX")`, the `expect` on
`parse::<u64>`, and `panic!("Command not recognized")`. -/
def handle_command (name : ByteStr) (args : List Value) (now : Nat)
    (store : Store) : Option (ByteStr × Store) :=
  if upperAscii name = asciiBytes "PING" then
    some (asciiBytes "+PONG\r\n", store)
  else if upperAscii name = asciiBytes "ECHO" then
    match args.mapM extract_string with
    | none => none
    | some parts => some (43 :: (parts.flatten ++ crlf), store)
  else if upperAscii name = asciiBytes "SET" then
    match args.get? 0 with
    | none => none
    | some kv =>
      match extract_string kv with
      | none => none
      | some key =>
        match args.get? 1 with
        | none => none
        | some vv =>
          match extract_string vv with
          | none => none
          | some value =>
            match
              (if args.length = 4 then
                match args.get? 2 with
                | none => none
                | some pxv =>
                  match extract_string pxv with
                  | none => none
                  | some px =>
                    if upperAscii px = asciiBytes "PX" then
                      match args.get? 3 with
                      | none => none
                      | some msv =>
                        match extract_string msv with
                        | none => none
                        | some ms => parseU64 ms
                    else none
              else some defaultTtlMs)
            with
            | none => none
            | some toAdd =>
              some (okReply, storeInsert store key ⟨value, now + toAdd⟩)
  else if upperAscii name = asciiBytes "GET" then
    match args.get? 0 with
    | none => none
    | some kv =>
      match extract_string kv with
      | none => none
      | some key =>
        match storeGet store key with
        | some x =>
          if x.expiry < now then some (nullBulk, store)
          else some (bulkReply x.value, store)
        | none => some (nullBulk, store)
  else none

/-!
## Test-vector examples

Sanity checks that the embedding reproduces the behavior observable from
the source's own `#[cfg(test)]` suite and from running the binary.
-/

example : decode (asciiBytes "+ABC\r\n") = some (Value.SimpleString (asciiBytes "ABC"), 6) := rfl

example : decode (asciiBytes "+\r\n") = some (Value.SimpleString [], 3) := rfl

example : decode (asciiBytes "$5\r\nabcde\r\n") =
    some (Value.BulkString (asciiBytes "abcde"), 11) := rfl

example : decode (asciiBytes "*2\r\n+AB\r\n+CD\r\n") =
    some (Value.Array [Value.SimpleString (asciiBytes "AB"),
      Value.SimpleString (asciiBytes "CD")], 14) := rfl

example : decode (asciiBytes "*2\r\n$4\r\nECHO\r\n$3\r\nhey\r\n") =
    some (Value.Array [Value.BulkString (asciiBytes "ECHO"),
      Value.BulkString (asciiBytes "hey")], 23) := rfl

example : get_command (Value.Array [Value.BulkString (asciiBytes "SET"),
      Value.BulkString (asciiBytes "k"), Value.BulkString (asciiBytes "v")]) =
    some (asciiBytes "SET",
      [Value.BulkString (asciiBytes "k"), Value.BulkString (asciiBytes "v")]) := rfl

example : handle_command (asciiBytes "PING") [] 0 [] =
    some (asciiBytes "+PONG\r\n", []) := rfl

example : handle_command (asciiBytes "Echo")
    [Value.BulkString (asciiBytes "he"), Value.BulkString (asciiBytes "y")] 0 [] =
    some (asciiBytes "+hey\r\n", []) := by decide

example : handle_command (asciiBytes "SET")
    [Value.BulkString (asciiBytes "k"), Value.BulkString (asciiBytes "v"),
      Value.BulkString (asciiBytes "px"), Value.BulkString (asciiBytes "100")] 7 [] =
    some (okReply, [(asciiBytes "k", ⟨asciiBytes "v", 107⟩)]) := by decide

example : handle_command (asciiBytes "GET") [Value.BulkString (asciiBytes "k")] 50
    [(asciiBytes "k", ⟨asciiBytes "vv", 50⟩)] =
    some (asciiBytes "$2\r\nvv\r\n", [(asciiBytes "k", ⟨asciiBytes "vv", 50⟩)]) := by
  decide

/-!
## Branch lemmas

Definitional reductions of `handle_command` for each concrete command name,
used to reason about the executor with abstract arguments and stores.
-/

theorem handle_ping_eq (args : List Value) (now : Nat) (s : Store) :
    handle_command (asciiBytes "PING") args now s =
      some (asciiBytes "+PONG\r\n", s) := rfl

theorem handle_echo_eq (args : List Value) (now : Nat) (s : Store) :
    handle_command (asciiBytes "ECHO") args now s =
      match args.mapM extract_string with
      | none => none
      | some parts => some (43 :: (parts.flatten ++ crlf), s) := rfl

theorem handle_get_eq (args : List Value) (now : Nat) (s : Store) :
    handle_command (asciiBytes "GET") args now s =
      match args.get? 0 with
      | none => none
      | some kv =>
        match extract_string kv with
        | none => none
        | some key =>
          match storeGet s key with
          | some x =>
            if x.expiry < now then some (nullBulk, s)
            else some (bulkReply x.value, s)
          | none => some (nullBulk, s) := rfl

theorem handle_get1_eq (k : ByteStr) (now : Nat) (s : Store) :
    handle_command (asciiBytes "GET") [Value.BulkString k] now s =
      match storeGet s k with
      | some x =>
        if x.expiry < now then some (nullBulk, s)
        else some (bulkReply x.value, s)
      | none => some (nullBulk, s) := rfl

theorem handle_set2_eq (k v : ByteStr) (now : Nat) (s : Store) :
    handle_command (asciiBytes "SET") [Value.BulkString k, Value.BulkString v] now s =
      some (okReply, storeInsert s k ⟨v, now + defaultTtlMs⟩) := rfl

theorem handle_set4_eq (k v px ms : ByteStr) (now : Nat) (s : Store) :
    handle_command (asciiBytes "SET")
      [Value.BulkString k, Value.BulkString v, Value.BulkString px, Value.BulkString ms]
      now s =
      match (if upperAscii px = asciiBytes "PX" then parseU64 ms else none) with
      | none => none
      | some n => some (okReply, storeInsert s k ⟨v, now + n⟩) := rfl

/-- Looking a key up right after inserting it yields the inserted entry. -/
theorem storeGet_storeInsert (s : Store) (k : ByteStr) (x : StoredValue) :
    storeGet (storeInsert s k x) k = some x := by
  induction s with
  | nil => simp [storeInsert, storeGet]
  | cons hd tl ih =>
    obtain ⟨k1, v1⟩ := hd
    by_cases h : k1 = k
    · simp [storeInsert, storeGet, h]
    · simp [storeInsert, storeGet, h, ih]

/-!
## Parser lemmas

General facts about `parseValue`/`parseElems` used for the array-count
claims: digit tokens are ASCII (hence valid UTF-8), `parse::<i64>` on a
digit token is its numeric value, `parseElems` returns exactly as many
elements as requested, and parsing is invariant under shifting the buffer.
-/

/-- An ASCII byte steps to the remaining bytes in the UTF-8 loop. -/
theorem validUtf8Go_cons_low (fuel b : Nat) (rest : ByteStr) (h : b ≤ 127) :
    validUtf8Go (fuel + 1) (b :: rest) = validUtf8Go fuel rest := by
  simp only [validUtf8Go, utf8Step]
  rw [if_pos h]

/-- An ASCII byte followed by a valid tail is valid UTF-8. -/
theorem validUtf8_cons_low (b : Nat) (rest : ByteStr) (h : b ≤ 127) :
    validUtf8 (b :: rest) = validUtf8 rest := by
  simp only [validUtf8, List.length_cons]
  exact validUtf8Go_cons_low rest.length b rest h

/-- The digit accumulator succeeds only on all-digit byte lists, which are
ASCII and hence valid UTF-8. -/
theorem digitsToNatAux_valid :
    ∀ (nd : ByteStr) (acc n : Nat), digitsToNatAux nd acc = some n → validUtf8 nd = true := by
  intro nd
  induction nd with
  | nil => intro acc n _; rfl
  | cons b rest ih =>
    intro acc n h
    simp only [digitsToNatAux] at h
    by_cases hb : 48 ≤ b ∧ b ≤ 57
    · rw [if_pos hb] at h
      rw [validUtf8_cons_low b rest (by omega)]
      exact ih _ _ h
    · rw [if_neg hb] at h
      exact Option.noConfusion h

/-- A byte list accepted by the digit accumulator starts with a digit. -/
theorem digitsToNatAux_head (b : Nat) (rest : ByteStr) (acc n : Nat)
    (h : digitsToNatAux (b :: rest) acc = some n) : 48 ≤ b ∧ b ≤ 57 := by
  simp only [digitsToNatAux] at h
  by_cases hb : 48 ≤ b ∧ b ≤ 57
  · exact hb
  · rw [if_neg hb] at h
    exact Option.noConfusion h

/-- `parse::<i64>` on a nonempty all-digit token yields the token's value
when it fits in an i64 and fails otherwise. -/
theorem parseI64_digits (b : Nat) (rest : ByteStr) (n : Nat)
    (h : digitsToNatAux (b :: rest) 0 = some n) :
    parseI64 (b :: rest) =
      if n ≤ 9223372036854775807 then some (Int.ofNat n) else none := by
  obtain ⟨hb1, hb2⟩ := digitsToNatAux_head b rest 0 n h
  rw [parseI64.eq_def]
  split
  · rename_i heq
    exact List.noConfusion heq
  · rename_i r heq
    injection heq with h1 h2
    omega
  · rename_i r heq
    injection heq with h1 h2
    omega
  · rw [h]

/-- `parseElems` returns exactly as many elements as requested. -/
theorem parseElems_length :
    ∀ (fuel : Nat) (buf : ByteStr) (pos n : Nat) (vs : List Value) (q : Nat),
      parseElems fuel buf pos n = some (vs, q) → vs.length = n := by
  intro fuel
  induction fuel with
  | zero =>
    intro buf pos n vs q h
    exact Option.noConfusion h
  | succ f ih =>
    intro buf pos n vs q h
    cases n with
    | zero =>
      have h2 : (([] : List Value), pos) = (vs, q) := Option.some.inj h
      have h3 : ([] : List Value) = vs := congrArg Prod.fst h2
      rw [← h3]
      rfl
    | succ m =>
      simp only [parseElems] at h
      split at h
      · exact Option.noConfusion h
      · split at h
        · exact Option.noConfusion h
        · rename_i he
          have h3 := (Prod.mk.inj (Option.some.inj h)).1
          rw [← h3]
          simp [ih _ _ _ _ _ he]

/-- One reduction step of `parse_value` on an array frame `*c…`, with the
optional-sign handling explicit. -/
theorem parse_star_raw_eq (c : Nat) (rest : ByteStr) (fuel : Nat) :
    parseValue (fuel + 1) (42 :: c :: rest) 0 =
      (let p2 := if c = 43 ∨ c = 45 then 2 else 1
       match takeUntilCR ((42 :: c :: rest).drop p2) with
       | none => none
       | some (nd, off) =>
         match fromUtf8 nd with
         | none => none
         | some nds =>
           match parseI64 nds with
           | none => none
           | some items =>
             match parseElems fuel (42 :: c :: rest) (p2 + off + 2) items.toNat with
             | none => none
             | some (arr, p) => some (Value.Array arr, p)) := rfl

/-- An array frame with an explicit count sign: the sign is consumed and the
count token is read from the two-byte offset; nothing else depends on it. -/
theorem parse_star_sign_eq (s : Nat) (rest : ByteStr) (fuel : Nat)
    (hs : s = 43 ∨ s = 45) :
    parseValue (fuel + 1) (42 :: s :: rest) 0 =
      match takeUntilCR rest with
      | none => none
      | some (nd, off) =>
        match fromUtf8 nd with
        | none => none
        | some nds =>
          match parseI64 nds with
          | none => none
          | some items =>
            match parseElems fuel (42 :: s :: rest) (2 + off + 2) items.toNat with
            | none => none
            | some (arr, p) => some (Value.Array arr, p) := by
  rcases hs with rfl | rfl <;> rfl

/-- Reading a byte beyond a prefix reads from the suffix. -/
theorem byteAt_append (d buf : ByteStr) (i : Nat) :
    byteAt (d ++ buf) (d.length + i) = byteAt buf i := by
  simp only [byteAt, List.get?_eq_getElem?]
  rw [List.getElem?_append_right (by omega)]
  congr 1
  omega

/-- Dropping past a prefix drops from the suffix. -/
theorem drop_append_nat (d buf : ByteStr) (i : Nat) :
    (d ++ buf).drop (d.length + i) = buf.drop i := by
  induction d with
  | nil => simp
  | cons a t ih =>
    rw [List.cons_append,
      show (a :: t).length + i = (t.length + i) + 1 from by
        simp only [List.length_cons]; omega,
      List.drop_succ_cons]
    exact ih

/-- Parsing is invariant under prepending a prefix the parser never reads:
running `parse_value`/the element loop at a position past a prefix `d`
yields the same value with all positions shifted by `d.length`. -/
theorem parse_shift :
    ∀ fuel : Nat,
      (∀ (d buf : ByteStr) (pos : Nat),
        parseValue fuel (d ++ buf) (d.length + pos) =
          Option.map (fun r => (r.1, d.length + r.2)) (parseValue fuel buf pos)) ∧
      (∀ (d buf : ByteStr) (pos n : Nat),
        parseElems fuel (d ++ buf) (d.length + pos) n =
          Option.map (fun r => (r.1, d.length + r.2)) (parseElems fuel buf pos n)) := by
  intro fuel
  induction fuel with
  | zero => exact ⟨fun d buf pos => rfl, fun d buf pos n => rfl⟩
  | succ f ih =>
    obtain ⟨ihV, ihE⟩ := ih
    constructor
    · intro d buf pos
      simp only [parseValue]
      rw [byteAt_append]
      split
      · rfl
      · rename_i b hb
        by_cases h43 : b = 43
        · simp only [if_pos h43]
          rw [show d.length + pos + 1 = d.length + (pos + 1) from by omega,
            drop_append_nat]
          split
          · rfl
          · rename_i nd off ht
            split
            · rfl
            · simp only [Option.map_some', Option.some.injEq, Prod.mk.injEq, true_and]
              omega
        · by_cases h36 : b = 36
          · simp only [if_neg h43, if_pos h36]
            rw [show d.length + pos + 4 = d.length + (pos + 4) from by omega,
              drop_append_nat]
            split
            · rfl
            · rename_i nd off ht
              split
              · rfl
              · simp only [Option.map_some', Option.some.injEq, Prod.mk.injEq, true_and]
                omega
          · by_cases h42 : b = 42
            · simp only [if_neg h43, if_neg h36, if_pos h42]
              rw [show d.length + pos + 1 = d.length + (pos + 1) from by omega,
                byteAt_append]
              split
              · rfl
              · rename_i c hc
                by_cases hsgn : c = 43 ∨ c = 45
                · simp only [if_pos hsgn]
                  rw [show d.length + pos + 2 = d.length + (pos + 2) from by omega,
                    drop_append_nat]
                  split
                  · rfl
                  · rename_i nd off ht
                    split
                    · rfl
                    · rename_i nds hnds
                      split
                      · rfl
                      · rename_i items hitems
                        rw [show d.length + (pos + 2) + off + 2 =
                          d.length + (pos + 2 + off + 2) from by omega, ihE]
                        cases hpe : parseElems f buf (pos + 2 + off + 2) items.toNat with
                        | none => rfl
                        | some r2 => rfl
                · simp only [if_neg hsgn]
                  rw [drop_append_nat]
                  split
                  · rfl
                  · rename_i nd off ht
                    split
                    · rfl
                    · rename_i nds hnds
                      split
                      · rfl
                      · rename_i items hitems
                        rw [show d.length + (pos + 1) + off + 2 =
                          d.length + (pos + 1 + off + 2) from by omega, ihE]
                        cases hpe : parseElems f buf (pos + 1 + off + 2) items.toNat with
                        | none => rfl
                        | some r2 => rfl
            · simp only [if_neg h43, if_neg h36, if_neg h42]
              rfl
    · intro d buf pos n
      cases n with
      | zero => rfl
      | succ m =>
        simp only [parseElems]
        rw [ihV]
        cases hv : parseValue f buf pos with
        | none => rfl
        | some r =>
          obtain ⟨v, p⟩ := r
          dsimp only [Option.map_some']
          rw [ihE]
          cases hpe : parseElems f buf p m with
          | none => rfl
          | some r2 => rfl

/-- An array frame whose count token starts with a digit: no sign is
consumed and the count token is read from the one-byte offset. -/
theorem parse_star_digit_eq (b : Nat) (rest : ByteStr) (fuel : Nat)
    (hb1 : 48 ≤ b) (hb2 : b ≤ 57) :
    parseValue (fuel + 1) (42 :: b :: rest) 0 =
      match takeUntilCR (b :: rest) with
      | none => none
      | some (nd, off) =>
        match fromUtf8 nd with
        | none => none
        | some nds =>
          match parseI64 nds with
          | none => none
          | some items =>
            match parseElems fuel (42 :: b :: rest) (1 + off + 2) items.toNat with
            | none => none
            | some (arr, p) => some (Value.Array arr, p) := by
  have hb : ¬ (b = 43 ∨ b = 45) := by omega
  rw [parse_star_raw_eq]
  simp only [if_neg hb]
  rfl

/-!
## Claim theorems
-/

/-- C1 (code_bug): the decoder does NOT read the bulk-string length token
digit-by-digit. `Parser::parse_value` skips a fixed four bytes after `$`
(`self.pos += 4`) and then collects payload bytes until the next CR, so on
the well-formed two-digit-length frame `$12\r\nhelloworld!!\r\n` it returns
`BulkString("\nhelloworld!!")` — the skipped-over `\n` of the header plus
the payload — instead of the declared 12-byte payload `helloworld!!`. -/
theorem C1_bulk_length_not_read :
    decode (asciiBytes "$12\r\nhelloworld!!\r\n") =
      some (Value.BulkString (asciiBytes "\nhelloworld!!"), 19) ∧
    asciiBytes "\nhelloworld!!" ≠ asciiBytes "helloworld!!" :=
  ⟨rfl, by decide⟩

/-- C2 (code_bug): the decoder has no fallible result channel at all. An
unsupported leading byte (`x`), a buffer that ends before the declared
payload is consumed (`$5\r\nab`), and an empty buffer all take the panic
path of the source (`panic!("Not supported …")` or an out-of-bounds index,
modelled as `none`); malformed input and incomplete input are
indistinguishable, and neither yields a `ProtocolError`/`IncompleteInput`
value. -/
theorem C2_decode_panics :
    decode (asciiBytes "x") = none ∧
    decode (asciiBytes "$5\r\nab") = none ∧
    decode [] = none ∧
    decode (asciiBytes "*x\r\n") = none :=
  ⟨rfl, rfl, rfl, rfl⟩

/-- C5 (code_bug): the command executor does not surface failures as error
replies. An unrecognized command name takes the
`panic!("Command not recognized …")` path, and `SET` with a missing value
argument takes the `.expect("ab")` path — both are process aborts
(modelled as `none`), not `UnknownCommandError`/`ArgumentError` replies. -/
theorem C5_executor_panics :
    handle_command (asciiBytes "FOO") [] 0 [] = none ∧
    handle_command (asciiBytes "SET") [Value.BulkString (asciiBytes "k")] 0 [] = none :=
  ⟨rfl, rfl⟩

/-- C6 (code_bug): `get_command` does not implement the claimed contract.
It accepts an array whose rest elements are NOT string-typed (returning
them unchecked), and on an empty array, a non-array root, or a non-string
first element it panics (index out of bounds, `panic!("Not a command")`,
`panic!("Not a string")`, modelled as `none`) instead of failing with a
`CommandError` value. -/
theorem C6_get_command_unchecked :
    get_command (Value.Array [Value.BulkString (asciiBytes "GET"), Value.Array []]) =
      some (asciiBytes "GET", [Value.Array []]) ∧
    get_command (Value.Array []) = none ∧
    get_command (Value.SimpleString (asciiBytes "x")) = none ∧
    get_command (Value.Array [Value.Array [], Value.BulkString (asciiBytes "x")]) = none :=
  ⟨rfl, rfl, rfl, rfl⟩

/-- C10 (counterexample): the claim that `*-N\r\n` returns `Array([])`
consuming zero elements is false for `N = 1`: the sign is consumed but the
`positive` flag is never used, so `*-1\r\n+A\r\n` is decoded with element
count 1 and yields `Array([SimpleString("A")])`, which is not `Array([])`. -/
theorem C10_negative_count_counterexample :
    decode (asciiBytes "*-1\r\n+A\r\n") =
      some (Value.Array [Value.SimpleString (asciiBytes "A")], 9) ∧
    (Value.Array [Value.SimpleString (asciiBytes "A")] = Value.Array [] → False) :=
  ⟨rfl, by intro h; injection h with h1; exact List.noConfusion h1⟩

/-- Shifting by a two-byte prefix, stated directly on cons cells. -/
theorem parse_shift2 (fuel a b : Nat) (buf : ByteStr) (pos n : Nat) :
    parseElems fuel (a :: b :: buf) (2 + pos) n =
      Option.map (fun r => (r.1, 2 + r.2)) (parseElems fuel buf pos n) := by
  have h := (parse_shift fuel).2 [a, b] buf pos n
  simpa using h

/-- C10 (amended): the decoder accepts an optional leading `+`/`-` sign in
an array's count token and then ignores the sign entirely: every `-`-signed
frame decodes exactly as the `+`-signed frame with the same remaining
bytes, and for every digit token of value N the signed frame `*-N\r\n…`
consumes exactly N elements, just like the unsigned frame `*N\r\n…`;
`Array([])` results only when the digit token has value 0. -/
theorem C10_count_sign_ignored :
    (∀ rest : ByteStr, decode (42 :: 45 :: rest) = decode (42 :: 43 :: rest)) ∧
    (∀ (s : Nat) (rest nd : ByteStr) (off n : Nat) (arr : List Value) (p : Nat),
      s = 43 ∨ s = 45 →
      takeUntilCR rest = some (nd, off) →
      digitsToNatAux nd 0 = some n →
      decode (42 :: s :: rest) = some (Value.Array arr, p) →
      arr.length = n) ∧
    (∀ (b : Nat) (rest1 nd : ByteStr) (off n : Nat) (arr : List Value) (p : Nat),
      48 ≤ b → b ≤ 57 →
      takeUntilCR (b :: rest1) = some (nd, off) →
      digitsToNatAux nd 0 = some n →
      decode (42 :: b :: rest1) = some (Value.Array arr, p) →
      arr.length = n) ∧
    (∀ (s : Nat) (rest nd : ByteStr) (off n p : Nat),
      s = 43 ∨ s = 45 →
      takeUntilCR rest = some (nd, off) →
      digitsToNatAux nd 0 = some n →
      decode (42 :: s :: rest) = some (Value.Array [], p) →
      n = 0) := by
  have part2 : ∀ (s : Nat) (rest nd : ByteStr) (off n : Nat) (arr : List Value) (p : Nat),
      s = 43 ∨ s = 45 →
      takeUntilCR rest = some (nd, off) →
      digitsToNatAux nd 0 = some n →
      decode (42 :: s :: rest) = some (Value.Array arr, p) →
      arr.length = n := by
    intro s rest nd off n arr p hs ht hdig hdec
    have hv : validUtf8 nd = true := digitsToNatAux_valid nd 0 n hdig
    simp only [decode, List.length_cons] at hdec
    rw [parse_star_sign_eq s rest _ hs, ht] at hdec
    dsimp only at hdec
    simp only [fromUtf8, hv, if_true] at hdec
    cases nd with
    | nil => exact Option.noConfusion hdec
    | cons b0 nd1 =>
      rw [parseI64_digits b0 nd1 n hdig] at hdec
      by_cases hmax : n ≤ 9223372036854775807
      · rw [if_pos hmax] at hdec
        dsimp only at hdec
        cases hpe : parseElems (rest.length + 2) (42 :: s :: rest) (2 + off + 2)
            (Int.ofNat n).toNat with
        | none => rw [hpe] at hdec; exact Option.noConfusion hdec
        | some r2 =>
          obtain ⟨arr2, q2⟩ := r2
          rw [hpe] at hdec
          have h2 := (Prod.mk.inj (Option.some.inj hdec)).1
          injection h2 with harr
          have hlen := parseElems_length _ _ _ _ _ _ hpe
          rw [show (Int.ofNat n).toNat = n from rfl] at hlen
          rw [← harr]
          exact hlen
      · rw [if_neg hmax] at hdec
        exact Option.noConfusion hdec
  refine ⟨?_, part2, ?_, ?_⟩
  · intro rest
    simp only [decode, List.length_cons]
    rw [parse_star_sign_eq 45 rest _ (Or.inr rfl),
      parse_star_sign_eq 43 rest _ (Or.inl rfl)]
    split
    · rfl
    · rename_i nd off ht
      split
      · rfl
      · rename_i nds hnds
        split
        · rfl
        · rename_i items hitems
          rw [show (2 + off + 2 : Nat) = 2 + (off + 2) from by omega,
            parse_shift2, parse_shift2]
  · intro b rest1 nd off n arr p hb1 hb2 ht hdig hdec
    have hv : validUtf8 nd = true := digitsToNatAux_valid nd 0 n hdig
    simp only [decode, List.length_cons] at hdec
    rw [parse_star_digit_eq b rest1 _ hb1 hb2, ht] at hdec
    dsimp only at hdec
    simp only [fromUtf8, hv, if_true] at hdec
    cases nd with
    | nil => exact Option.noConfusion hdec
    | cons b0 nd1 =>
      rw [parseI64_digits b0 nd1 n hdig] at hdec
      by_cases hmax : n ≤ 9223372036854775807
      · rw [if_pos hmax] at hdec
        dsimp only at hdec
        cases hpe : parseElems (rest1.length + 2) (42 :: b :: rest1) (1 + off + 2)
            (Int.ofNat n).toNat with
        | none => rw [hpe] at hdec; exact Option.noConfusion hdec
        | some r2 =>
          obtain ⟨arr2, q2⟩ := r2
          rw [hpe] at hdec
          have h2 := (Prod.mk.inj (Option.some.inj hdec)).1
          injection h2 with harr
          have hlen := parseElems_length _ _ _ _ _ _ hpe
          rw [show (Int.ofNat n).toNat = n from rfl] at hlen
          rw [← harr]
          exact hlen
      · rw [if_neg hmax] at hdec
        exact Option.noConfusion hdec
  · intro s rest nd off n p hs ht hdig hdec
    have := part2 s rest nd off n [] p hs ht hdig hdec
    simpa using this.symm

/-- Witness for C10_count_sign_ignored at a concrete signed frame:
`*-2\r\n+A\r\n+B\r\n` has the digit token `2` and decodes to a
two-element array. -/
theorem C10_count_sign_ignored_witness :
    takeUntilCR (asciiBytes "2\r\n+A\r\n+B\r\n") = some (asciiBytes "2", 1) ∧
    digitsToNatAux (asciiBytes "2") 0 = some 2 ∧
    decode (42 :: 45 :: asciiBytes "2\r\n+A\r\n+B\r\n") =
      some (Value.Array [Value.SimpleString (asciiBytes "A"),
        Value.SimpleString (asciiBytes "B")], 13) ∧
    [Value.SimpleString (asciiBytes "A"), Value.SimpleString (asciiBytes "B")].length = 2 :=
  ⟨by decide, by decide, rfl,
    C10_count_sign_ignored.2.1 45 (asciiBytes "2\r\n+A\r\n+B\r\n") (asciiBytes "2") 1 2
      [Value.SimpleString (asciiBytes "A"), Value.SimpleString (asciiBytes "B")] 13
      (Or.inr rfl) (by decide) (by decide) rfl⟩

/-- C3 (counterexample): the claim that GET returns absent when the expiry
is AT or before the current time is false at the boundary: the source
tests `x.expiry < get_time()`, so with `expiry = 100` and current time
`100` it returns the stored value's bulk reply, not the null bulk `$-1`. -/
theorem C3_boundary_counterexample :
    handle_command (asciiBytes "GET") [Value.BulkString (asciiBytes "k")] 100
      [(asciiBytes "k", ⟨asciiBytes "v", 100⟩)] =
      some (bulkReply (asciiBytes "v"), [(asciiBytes "k", ⟨asciiBytes "v", 100⟩)]) ∧
    bulkReply (asciiBytes "v") ≠ nullBulk :=
  ⟨by decide, by decide⟩

/-- C3 (amended): GET returns the stored value while the current time is at
or before the stored absolute expiry, and the null bulk reply `$-1\r\n`
when the key is absent or its expiry is strictly before the current time,
never deleting the row; in particular after `SET k v PX 0` (expiry = the
set time) any strictly positive delay makes GET yield the null bulk. -/
theorem C3_get_lazy_expiry :
    (∀ (k v : ByteStr) (exp now : Nat) (s : Store),
      storeGet s k = some ⟨v, exp⟩ →
      handle_command (asciiBytes "GET") [Value.BulkString k] now s =
        some ((if exp < now then nullBulk else bulkReply v), s)) ∧
    (∀ (k : ByteStr) (now : Nat) (s : Store),
      storeGet s k = none →
      handle_command (asciiBytes "GET") [Value.BulkString k] now s =
        some (nullBulk, s)) ∧
    (∀ (k v : ByteStr) (t d : Nat) (s s2 : Store) (r : ByteStr),
      handle_command (asciiBytes "SET")
        [Value.BulkString k, Value.BulkString v,
          Value.BulkString (asciiBytes "PX"), Value.BulkString (asciiBytes "0")] t s =
        some (r, s2) →
      0 < d →
      handle_command (asciiBytes "GET") [Value.BulkString k] (t + d) s2 =
        some (nullBulk, s2)) := by
  refine ⟨?_, ?_, ?_⟩
  · intro k v exp now s h
    rw [handle_get1_eq, h]
    by_cases hc : exp < now
    · simp [hc]
    · simp [hc]
  · intro k now s h
    rw [handle_get1_eq, h]
  · intro k v t d s s2 r h hd
    rw [handle_set4_eq] at h
    have hpx : (if upperAscii (asciiBytes "PX") = asciiBytes "PX"
        then parseU64 (asciiBytes "0") else none) = some 0 := by decide
    rw [hpx] at h
    obtain ⟨-, hs⟩ := Prod.mk.injEq .. ▸ Option.some.inj h
    subst hs
    rw [handle_get1_eq, storeGet_storeInsert]
    have hlt : t + 0 < t + d := by omega
    simp [hlt]
    intro h0
    omega

/-- Witness for C3_get_lazy_expiry at concrete inputs: an unexpired entry
(expiry 10, time 3) is returned, and `SET k v PX 0` at time 5 followed by
GET at time 6 yields the null bulk. -/
theorem C3_get_lazy_expiry_witness :
    storeGet [(asciiBytes "k", ⟨asciiBytes "v", 10⟩)] (asciiBytes "k") =
      some ⟨asciiBytes "v", 10⟩ ∧
    handle_command (asciiBytes "GET") [Value.BulkString (asciiBytes "k")] 3
      [(asciiBytes "k", ⟨asciiBytes "v", 10⟩)] =
      some ((if 10 < 3 then nullBulk else bulkReply (asciiBytes "v")),
        [(asciiBytes "k", ⟨asciiBytes "v", 10⟩)]) ∧
    handle_command (asciiBytes "GET") [Value.BulkString (asciiBytes "k")] 6
      (storeInsert [] (asciiBytes "k") ⟨asciiBytes "v", 5⟩) =
      some (nullBulk, storeInsert [] (asciiBytes "k") ⟨asciiBytes "v", 5⟩) :=
  ⟨by decide,
    C3_get_lazy_expiry.1 (asciiBytes "k") (asciiBytes "v") 10 3 _ (by decide),
    C3_get_lazy_expiry.2.2 (asciiBytes "k") (asciiBytes "v") 5 1 [] _ okReply
      (by decide) (by decide)⟩

/-- C4 (counterexample): the claim that every non-`PX` case falls back to
the default one-year ttl is false when a third token is present together
with a fourth: with four arguments whose third token is `XX`, the
`assert!(key.to_ascii_uppercase() == "PX")` of the source fails, so the
call panics (modelled `none`) instead of replying OK with the default
expiry. -/
theorem C4_non_px_counterexample :
    handle_command (asciiBytes "SET")
      [Value.BulkString (asciiBytes "k"), Value.BulkString (asciiBytes "v"),
        Value.BulkString (asciiBytes "XX"), Value.BulkString (asciiBytes "100")] 0 [] =
      none ∧
    (none : Option (ByteStr × Store)) ≠
      some (okReply, [(asciiBytes "k", ⟨asciiBytes "v", defaultTtlMs⟩)]) :=
  ⟨rfl, by decide⟩

/-- C4 (amended): SET stores expiry = now + the given milliseconds exactly
when the argument list has exactly four tokens whose third
case-insensitively equals `PX` and whose fourth parses as a `u64`, and
stores expiry = now + the one-year default whenever the argument count is
not four (a lone third token, or five tokens even with `PX` in third
position, still give the default); with four tokens whose third is not
`PX`, or whose fourth is non-numeric, the executor panics instead of
replying. The success reply is the simple string OK. -/
theorem C4_set_expiry :
    (∀ (k v : ByteStr) (now : Nat) (s : Store),
      handle_command (asciiBytes "SET")
        [Value.BulkString k, Value.BulkString v] now s =
        some (okReply, storeInsert s k ⟨v, now + defaultTtlMs⟩)) ∧
    (∀ (k v w : ByteStr) (now : Nat) (s : Store),
      handle_command (asciiBytes "SET")
        [Value.BulkString k, Value.BulkString v, Value.BulkString w] now s =
        some (okReply, storeInsert s k ⟨v, now + defaultTtlMs⟩)) ∧
    (∀ (k v p m e : ByteStr) (now : Nat) (s : Store),
      handle_command (asciiBytes "SET")
        [Value.BulkString k, Value.BulkString v, Value.BulkString p,
          Value.BulkString m, Value.BulkString e] now s =
        some (okReply, storeInsert s k ⟨v, now + defaultTtlMs⟩)) ∧
    (∀ (k v px ms : ByteStr) (n now : Nat) (s : Store),
      upperAscii px = asciiBytes "PX" → parseU64 ms = some n →
      handle_command (asciiBytes "SET")
        [Value.BulkString k, Value.BulkString v, Value.BulkString px,
          Value.BulkString ms] now s =
        some (okReply, storeInsert s k ⟨v, now + n⟩)) ∧
    (∀ (k v px ms : ByteStr) (now : Nat) (s : Store),
      upperAscii px ≠ asciiBytes "PX" →
      handle_command (asciiBytes "SET")
        [Value.BulkString k, Value.BulkString v, Value.BulkString px,
          Value.BulkString ms] now s = none) ∧
    (∀ (k v px ms : ByteStr) (now : Nat) (s : Store),
      parseU64 ms = none →
      handle_command (asciiBytes "SET")
        [Value.BulkString k, Value.BulkString v, Value.BulkString px,
          Value.BulkString ms] now s = none) := by
  refine ⟨fun k v now s => rfl, fun k v w now s => rfl, fun k v p m e now s => rfl,
    ?_, ?_, ?_⟩
  · intro k v px ms n now s hpx hms
    rw [handle_set4_eq, if_pos hpx, hms]
  · intro k v px ms now s hpx
    rw [handle_set4_eq, if_neg hpx]
  · intro k v px ms now s hms
    rw [handle_set4_eq]
    by_cases hpx : upperAscii px = asciiBytes "PX"
    · rw [if_pos hpx, hms]
    · rw [if_neg hpx]

/-- Witness for C4_set_expiry: `SET k v pX 250` at time 5 stores expiry 255
and replies OK, and `SET k v XX 250` panics. -/
theorem C4_set_expiry_witness :
    upperAscii (asciiBytes "pX") = asciiBytes "PX" ∧
    parseU64 (asciiBytes "250") = some 250 ∧
    upperAscii (asciiBytes "XX") ≠ asciiBytes "PX" ∧
    handle_command (asciiBytes "SET")
      [Value.BulkString (asciiBytes "k"), Value.BulkString (asciiBytes "v"),
        Value.BulkString (asciiBytes "pX"), Value.BulkString (asciiBytes "250")] 5 [] =
      some (okReply, storeInsert [] (asciiBytes "k") ⟨asciiBytes "v", 255⟩) ∧
    handle_command (asciiBytes "SET")
      [Value.BulkString (asciiBytes "k"), Value.BulkString (asciiBytes "v"),
        Value.BulkString (asciiBytes "XX"), Value.BulkString (asciiBytes "250")] 5 [] =
      none :=
  ⟨by decide, by decide, by decide,
    C4_set_expiry.2.2.2.1 (asciiBytes "k") (asciiBytes "v") (asciiBytes "pX")
      (asciiBytes "250") 250 5 [] (by decide) (by decide),
    C4_set_expiry.2.2.2.2.1 (asciiBytes "k") (asciiBytes "v") (asciiBytes "XX")
      (asciiBytes "250") 5 [] (by decide)⟩

/-- C7 (confirmed): for every key and value, `SET k v` with the default ttl
immediately followed by `GET k` (same clock reading) yields the bulk reply
carrying exactly `v`, on any starting store. -/
theorem C7_set_then_get (k v : ByteStr) (now : Nat) (s : Store) :
    handle_command (asciiBytes "SET") [Value.BulkString k, Value.BulkString v] now s =
      some (okReply, storeInsert s k ⟨v, now + defaultTtlMs⟩) ∧
    handle_command (asciiBytes "GET") [Value.BulkString k] now
      (storeInsert s k ⟨v, now + defaultTtlMs⟩) =
      some (bulkReply v, storeInsert s k ⟨v, now + defaultTtlMs⟩) := by
  refine ⟨rfl, ?_⟩
  rw [handle_get1_eq, storeGet_storeInsert]
  have hno : ¬ (now + defaultTtlMs < now) := by omega
  simp [hno]

/-- C8 (confirmed): a second SET on the same key fully replaces both the
value and the expiry (last-write-wins): after `SET k v1` at time `t1` and
`SET k v2` at time `t2`, the entry for `k` is exactly
`(v2, t2 + default ttl)` and `GET k` at time `t2` yields the bulk reply
carrying `v2`. -/
theorem C8_overwrite (k v1 v2 : ByteStr) (t1 t2 : Nat) (s : Store) :
    handle_command (asciiBytes "SET") [Value.BulkString k, Value.BulkString v1] t1 s =
      some (okReply, storeInsert s k ⟨v1, t1 + defaultTtlMs⟩) ∧
    handle_command (asciiBytes "SET") [Value.BulkString k, Value.BulkString v2] t2
      (storeInsert s k ⟨v1, t1 + defaultTtlMs⟩) =
      some (okReply,
        storeInsert (storeInsert s k ⟨v1, t1 + defaultTtlMs⟩) k ⟨v2, t2 + defaultTtlMs⟩) ∧
    storeGet (storeInsert (storeInsert s k ⟨v1, t1 + defaultTtlMs⟩) k
      ⟨v2, t2 + defaultTtlMs⟩) k = some ⟨v2, t2 + defaultTtlMs⟩ ∧
    handle_command (asciiBytes "GET") [Value.BulkString k] t2
      (storeInsert (storeInsert s k ⟨v1, t1 + defaultTtlMs⟩) k ⟨v2, t2 + defaultTtlMs⟩) =
      some (bulkReply v2,
        storeInsert (storeInsert s k ⟨v1, t1 + defaultTtlMs⟩) k ⟨v2, t2 + defaultTtlMs⟩) := by
  refine ⟨rfl, rfl, storeGet_storeInsert .., ?_⟩
  rw [handle_get1_eq, storeGet_storeInsert]
  have hno : ¬ (t2 + defaultTtlMs < t2) := by omega
  simp [hno]

/-- C9 (confirmed): the non-SET commands PING, ECHO and GET never change the
store: whenever one of them returns (rather than panicking), the resulting
store is the input store — in particular GET on an absent or expired key
replies without deleting anything, and expired entries stay in the map. -/
theorem C9_read_only_commands (args : List Value) (now : Nat) (s : Store)
    (r : ByteStr) (s2 : Store) :
    (handle_command (asciiBytes "PING") args now s = some (r, s2) → s2 = s) ∧
    (handle_command (asciiBytes "ECHO") args now s = some (r, s2) → s2 = s) ∧
    (handle_command (asciiBytes "GET") args now s = some (r, s2) → s2 = s) := by
  refine ⟨?_, ?_, ?_⟩
  · intro h
    rw [handle_ping_eq] at h
    exact (congrArg Prod.snd (Option.some.inj h)).symm
  · intro h
    rw [handle_echo_eq] at h
    split at h
    · exact Option.noConfusion h
    · exact (congrArg Prod.snd (Option.some.inj h)).symm
  · intro h
    rw [handle_get_eq] at h
    repeat' split at h
    any_goals exact Option.noConfusion h
    all_goals exact (congrArg Prod.snd (Option.some.inj h)).symm

/-- Witness for C9_read_only_commands: a GET on an expired entry (expiry 3,
time 9) replies with the null bulk and leaves the store — expired row
included — unchanged. -/
theorem C9_read_only_commands_witness :
    handle_command (asciiBytes "GET") [Value.BulkString (asciiBytes "k")] 9
      [(asciiBytes "k", ⟨asciiBytes "v", 3⟩)] =
      some (nullBulk, [(asciiBytes "k", ⟨asciiBytes "v", 3⟩)]) ∧
    [(asciiBytes "k", (⟨asciiBytes "v", 3⟩ : StoredValue))] =
      [(asciiBytes "k", (⟨asciiBytes "v", 3⟩ : StoredValue))] :=
  ⟨by decide,
    (C9_read_only_commands [Value.BulkString (asciiBytes "k")] 9
      [(asciiBytes "k", ⟨asciiBytes "v", 3⟩)] nullBulk
      [(asciiBytes "k", ⟨asciiBytes "v", 3⟩)]).2.2 (by decide)⟩
